import Mathlib

/-!
# Verification of the r2-share chunked-upload coordinator

Shallow embedding of `src/index.js` (a Cloudflare Worker managing chunked
uploads into an R2 bucket).  The bucket is modelled as an association list
from string keys to stored values; `put` overwrites, `get` returns the most
recent value, `delete` removes every entry for the key.  Byte buffers are
`List Nat`.  The JSON-serialized session metadata object written by
`prepareUpload` and parsed back by `completeUpload` is modelled by the
structured variant `StoreValue.meta` (the JSON round-trip is exact in the
source, so parsing is modelled as recovering the record).

Store operations that can reject at runtime (R2 `delete` during cleanup and
multipart `uploadPart`) are driven by an explicit `FailureModel`; the
all-succeeding model is `noFailures`.
-/

namespace R2Share

/-- Raw byte buffers (an `ArrayBuffer` in the source). -/
abbrev Bytes := List Nat

/-- The session record stored as `{uploadId}.meta` by `prepareUpload`
(src/index.js:366-373) and parsed by `completeUpload` (line 457).
`size` is the client-declared byte length; it is absent (`none`) when the
client sent no `size` field (JS `undefined`).  The `uploadId`/`createdAt`
fields of the JSON record are never read back and are not modelled. -/
structure UploadMeta where
  filename : String
  contentType : String
  size : Option Nat
  status : String
deriving Repr, DecidableEq

/-- A value stored in the bucket: either a raw blob with its http
content type, or the serialized session metadata record. -/
inductive StoreValue where
  | blob (data : Bytes) (contentType : String)
  | meta (m : UploadMeta)
deriving Repr, DecidableEq

/-- Byte content of a stored object (`arrayBuffer()` in the source).  For a
metadata object this stands for the bytes of its JSON text; the exact value
never matters because chunk keys hold raw blobs in every scenario the
claims quantify over. -/
def StoreValue.contentBytes : StoreValue → Bytes
  | StoreValue.blob data _ => data
  | StoreValue.meta m => m.filename.toList.map Char.toNat

/-- The R2 bucket: an association list, most recent entry first. -/
abbrev Store := List (String × StoreValue)

/-- Model of `bucket.get(key)`: the most recently written value for `key`. -/
def getObj (store : Store) (key : String) : Option StoreValue :=
  match store with
  | [] => none
  | (k, v) :: rest => if k = key then some v else getObj rest key

/-- Model of `bucket.delete(key)`: remove every entry for `key`. -/
def deleteObj (store : Store) (key : String) : Store :=
  match store with
  | [] => []
  | (k, v) :: rest =>
    if k = key then deleteObj rest key else (k, v) :: deleteObj rest key

/-- Model of `bucket.put(key, value)`: overwrite `key` with `value`. -/
def putObj (store : Store) (key : String) (v : StoreValue) : Store :=
  (key, v) :: deleteObj store key

/-- Chunk object key `` `${uploadId}.chunk.${i}` `` (src/index.js:404, 466, 508). -/
def chunkKey (uploadId : String) (i : Nat) : String :=
  uploadId ++ ".chunk." ++ toString i

/-- Metadata object key `` `${uploadId}.meta` `` (src/index.js:366, 452, 564). -/
def metaKey (uploadId : String) : String :=
  uploadId ++ ".meta"

/-- Model of `contentType || 'application/octet-stream'`: JS `||` falls through on the
falsy values `undefined` and `""`. -/
def defaultedContentType (ct : Option String) : String :=
  match ct with
  | none => "application/octet-stream"
  | some c => if c = "" then "application/octet-stream" else c

/-- The session record `prepareUpload` serializes into `{uploadId}.meta`
(src/index.js:366-373); `createdAt` and the redundant `uploadId` field are
not modelled. -/
def sessionMeta (filename : String) (contentType : Option String)
    (size : Option Nat) : UploadMeta :=
  { filename := filename
    contentType := defaultedContentType contentType
    size := size
    status := "in-progress" }

/-- Model of `prepareUpload` (src/index.js:348-382): reject an absent/empty filename
(JS `!filename`), otherwise store the session metadata object.  The fresh
`crypto.randomUUID()` is passed in as `newUploadId`. -/
def prepareUpload (store : Store) (newUploadId : String) (filename : String)
    (contentType : Option String) (size : Option Nat) : Except String Store :=
  if filename = "" then Except.error "Filename is required"
  else Except.ok (putObj store (metaKey newUploadId)
    (StoreValue.meta (sessionMeta filename contentType size)))

/-- Result of the upload-chunk operation: `ok` is the `success` field of the
JSON response; `store` is the bucket afterwards. -/
structure UploadChunkResult where
  ok : Bool
  store : Store
deriving Repr, DecidableEq

/-- JS truthiness of a `formData.get` result as tested at src/index.js:393:
`none` models the `null` returned for an absent field, which is falsy, and
a present empty-string value is falsy too. -/
def falsyField : Option String → Bool
  | none => true
  | some s => decide (s = "")

/-- Rendering of a `formData.get` result inside a template literal
(src/index.js:404): an absent field is `null`, which prints as `"null"`. -/
def fieldText : Option String → String
  | none => "null"
  | some s => s

/-- Model of `uploadChunk` (src/index.js:385-433).  The guard at line 393 is
`!chunkBlob || index === undefined || !uploadId || !filename`: it answers a
400 (touching nothing) when the chunk is absent (`null` is falsy; a present
`Blob` is always truthy, even when empty) or when `uploadId` or `filename`
is absent or the empty string.  `formData.get` returns `null`, never
`undefined`, so the `index === undefined` test never fires: a missing
`index` passes the guard and the chunk is stored under
`` `${uploadId}.chunk.null` ``.  Otherwise the chunk blob is written at
`` `${uploadId}.chunk.${index}` `` and the call answers success.  Note that
the source never reads `{uploadId}.meta`: no session-existence check
happens here. -/
def uploadChunk (store : Store) (chunkBytes : Option Bytes)
    (index : Option String) (uploadId : Option String)
    (filename : Option String) : UploadChunkResult :=
  match chunkBytes with
  | none => { ok := false, store := store }
  | some bs =>
    if falsyField uploadId || falsyField filename then
      { ok := false, store := store }
    else
      { ok := true
        store := putObj store
          (fieldText uploadId ++ ".chunk." ++ fieldText index)
          (StoreValue.blob bs "application/octet-stream") }

/-- The strategy test `metadata.size < 100 * 1024 * 1024`
(src/index.js:460).  In JS, `undefined < n` is `false`, so an absent
declared size selects the multipart branch. -/
def isSmallFile (size : Option Nat) : Bool :=
  match size with
  | some s => decide (s < 100 * 1024 * 1024)
  | none => false

/-- Model of `metadata.contentType || 'application/octet-stream'` as used when
writing the final object (src/index.js:490, 498). -/
def finalContentType (m : UploadMeta) : String :=
  if m.contentType = "" then "application/octet-stream" else m.contentType

/-- The chunk-reading loop shared by both reassembly branches
(src/index.js:465-475 and 507-521): starting at index `i` with `rem` chunks
still to read, return the byte buffers of the chunks found before the first
gap, together with the index of the first missing chunk (`none` if every
chunk was found). -/
def collectChunks (store : Store) (uploadId : String) :
    Nat → Nat → List Bytes × Option Nat
  | _, 0 => ([], none)
  | i, rem + 1 =>
    match getObj store (chunkKey uploadId i) with
    | none => ([], some i)
    | some v =>
      let rest := collectChunks store uploadId (i + 1) rem
      (v.contentBytes :: rest.1, rest.2)

/-- Pair each buffer with a part number, counting up from `n`. -/
def partsFrom (n : Nat) : List Bytes → List (Nat × Bytes)
  | [] => []
  | bs :: rest => (n, bs) :: partsFrom (n + 1) rest

/-- The `(partNumber, bytes)` pairs handed to `multipartUpload.uploadPart`:
chunk index `i` becomes part number `i + 1`, starting at 1
(src/index.js:516-520). -/
def partsOf (allChunks : List Bytes) : List (Nat × Bytes) :=
  partsFrom 1 allChunks

/-- Which store calls reject at runtime.  `partFails n` means the
`uploadPart` promise for part number `n` rejects; `deleteFails k` means the
`delete(k)` promise rejects. -/
structure FailureModel where
  partFails : Nat → Bool
  deleteFails : String → Bool

/-- The environment in which every store call succeeds. -/
def noFailures : FailureModel :=
  { partFails := fun _ => false, deleteFails := fun _ => false }

/-- The keys `cleanupChunks` deletes, in the order their delete promises are
created (src/index.js:558-564): chunks `0..chunks-1`, then the metadata. -/
def cleanupKeys (uploadId : String) (chunks : Nat) : List String :=
  (List.range chunks).map (chunkKey uploadId) ++ [metaKey uploadId]

/-- Apply a batch of deletes: every delete is attempted (the promises all
run), a rejecting delete leaves its key in place. -/
def applyDeletes (fm : FailureModel) (store : Store) : List String → Store
  | [] => store
  | k :: ks =>
    applyDeletes fm (if fm.deleteFails k then store else deleteObj store k) ks

/-- Errors thrown inside `completeUpload`'s `try` block; each carries what
the source's `Error` message carries.  `metaUnreadable` stands for
`JSON.parse` throwing on a metadata key that holds a plain blob. -/
inductive CompleteError where
  | metaNotFound
  | metaUnreadable
  | chunkNotFound (i : Nat)
  | partFailed (partNumber : Nat)
  | deleteFailed (key : String)
deriving Repr, DecidableEq

/-- Holds (as `true`) exactly for the error raised by a failed cleanup delete. -/
def CompleteError.isCleanupError : CompleteError → Bool
  | CompleteError.deleteFailed _ => true
  | _ => false

/-- Model of `cleanupChunks` (src/index.js:553-568): create delete promises for all
chunk keys and the metadata key and `Promise.all` them.  All deletes are
attempted; the overall result is the first rejection (in promise-creation
order, the order `Promise.all` reports being abstracted to it) or success. -/
def cleanupChunks (fm : FailureModel) (store : Store) (uploadId : String)
    (chunks : Nat) : Except CompleteError Unit × Store :=
  (match (cleanupKeys uploadId chunks).find? (fun k => fm.deleteFails k) with
    | some k => Except.error (CompleteError.deleteFailed k)
    | none => Except.ok (),
   applyDeletes fm store (cleanupKeys uploadId chunks))

/-- Observable outcome of one `completeUpload` call.  `outcome` is the JSON
response (`ok` = `success:true`, an error = the 500 with that error's
message); `store` is the bucket afterwards; `finalizeCalled` records whether
`multipartUpload.complete` was invoked; `partPuts` records the
`(partNumber, bytes)` pairs submitted to `uploadPart`. -/
structure CompleteResult where
  outcome : Except CompleteError Unit
  store : Store
  finalizeCalled : Bool
  partPuts : List (Nat × Bytes)

/-- Model of `completeUpload` (src/index.js:436-550), from the top of the `try`
block (the preceding missing-field 400 check is not modelled; all three
fields are given).  Load and parse the metadata; pick the strategy by
`metadata.size < 100MiB`; on the small path read chunks `0..chunks-1` in
order, concatenate, and `put` the result under `filename`; on the large
path read the chunks, submit each as part `i+1`, and on success of every
part finalize the multipart upload (modelled as the concatenated `put`,
which is what `complete` commits).  Either way then run `cleanupChunks`
inside the same `try`, so a cleanup rejection becomes the call's outcome. -/
def completeUpload (fm : FailureModel) (store : Store)
    (filename uploadId : String) (chunks : Nat) : CompleteResult :=
  match getObj store (metaKey uploadId) with
  | none =>
    { outcome := Except.error CompleteError.metaNotFound
      store := store, finalizeCalled := false, partPuts := [] }
  | some (StoreValue.blob _ _) =>
    { outcome := Except.error CompleteError.metaUnreadable
      store := store, finalizeCalled := false, partPuts := [] }
  | some (StoreValue.meta metadata) =>
    if isSmallFile metadata.size then
      match collectChunks store uploadId 0 chunks with
      | (_, some i) =>
        { outcome := Except.error (CompleteError.chunkNotFound i)
          store := store, finalizeCalled := false, partPuts := [] }
      | (allChunks, none) =>
        let store1 := putObj store filename
          (StoreValue.blob allChunks.flatten (finalContentType metadata))
        let cleaned := cleanupChunks fm store1 uploadId chunks
        { outcome := cleaned.1, store := cleaned.2
          finalizeCalled := false, partPuts := [] }
    else
      match collectChunks store uploadId 0 chunks with
      | (allChunks, some i) =>
        { outcome := Except.error (CompleteError.chunkNotFound i)
          store := store, finalizeCalled := false
          partPuts := partsOf allChunks }
      | (allChunks, none) =>
        match (partsOf allChunks).find? (fun p => fm.partFails p.1) with
        | some p =>
          { outcome := Except.error (CompleteError.partFailed p.1)
            store := store, finalizeCalled := false
            partPuts := partsOf allChunks }
        | none =>
          let store1 := putObj store filename
            (StoreValue.blob allChunks.flatten (finalContentType metadata))
          let cleaned := cleanupChunks fm store1 uploadId chunks
          { outcome := cleaned.1, store := cleaned.2
            finalizeCalled := true, partPuts := partsOf allChunks }

/-- Whether `pat` occurs as a contiguous subsequence of the character list. -/
def containsSeq (pat : List Char) : List Char → Bool
  | [] => false
  | c :: rest => pat.isPrefixOf (c :: rest) || containsSeq pat rest

/-- Model of `key.includes('.chunk.')` (src/index.js:308). -/
def hasChunkMarker (key : String) : Bool :=
  containsSeq ".chunk.".toList key.toList

/-- Model of `listFiles` (src/index.js:297-320): list the bucket and drop every key
containing `.chunk.` or ending in `.meta`; report `(name, size)` pairs.
(The source passes `limit: 1000` to `list`; truncation of buckets beyond
1000 objects is not modelled, only the filtering.) -/
def listFiles (store : Store) : List (String × Nat) :=
  (store.filter
      (fun kv => !hasChunkMarker kv.1 && !kv.1.endsWith ".meta")).map
    (fun kv => (kv.1, kv.2.contentBytes.length))

/-- Model of `downloadFile` (src/index.js:323-345): 404 when the key is absent,
otherwise the object's bytes with its content type (defaulted when the
object carries none). -/
def downloadFile (store : Store) (filename : String) :
    Except String (Bytes × String) :=
  match getObj store filename with
  | none => Except.error "File not found"
  | some (StoreValue.blob data ct) =>
    Except.ok (data, if ct = "" then "application/octet-stream" else ct)
  | some (StoreValue.meta m) =>
    Except.ok ((StoreValue.meta m).contentBytes, "application/octet-stream")

/-! ## Concrete scenarios used by witnesses and counterexamples -/

/-- A small-file session record (declared size 3 bytes). -/
def exMeta : UploadMeta := sessionMeta "f" (some "text/plain") (some 3)

/-- A large-file session record (declared size 200 MiB). -/
def exMetaLarge : UploadMeta :=
  sessionMeta "f" (some "text/plain") (some (200 * 1024 * 1024))

/-- A session record stored for a client that sent no `size` field. -/
def exMetaNoSize : UploadMeta := sessionMeta "f" (some "text/plain") none

/-- Bucket holding session `u` and chunks 0 and 1. -/
def exStore : Store :=
  [(metaKey "u", StoreValue.meta exMeta),
   (chunkKey "u" 0, StoreValue.blob [1, 2] "application/octet-stream"),
   (chunkKey "u" 1, StoreValue.blob [3] "application/octet-stream")]

/-- The chunk bytes of `exStore`, as a function of the part index. -/
def exB : Nat → Bytes := fun i => if i = 0 then [1, 2] else [3]

/-- The chunk content types of `exStore`. -/
def exCts : Nat → String := fun _ => "application/octet-stream"

/-- Bucket holding session `u` and only chunk 0. -/
def exStoreOne : Store :=
  [(metaKey "u", StoreValue.meta exMeta),
   (chunkKey "u" 0, StoreValue.blob [1, 2] "application/octet-stream")]

/-- Bucket for the large-file scenario: session (200 MiB declared) and chunk 0. -/
def exStoreLarge : Store :=
  [(metaKey "u", StoreValue.meta exMetaLarge),
   (chunkKey "u" 0, StoreValue.blob [1, 2] "application/octet-stream")]

/-- Bucket for the no-declared-size scenario: session and chunk 0. -/
def exStoreNoSize : Store :=
  [(metaKey "u", StoreValue.meta exMetaNoSize),
   (chunkKey "u" 0, StoreValue.blob [9] "application/octet-stream")]

/-- Failure model in which the delete of chunk 0 of `u` rejects. -/
def exFailDelete : FailureModel :=
  { partFails := fun _ => false
    deleteFails := fun k => decide (k = chunkKey "u" 0) }

/-- Failure model in which the upload of part number 1 rejects. -/
def exFailPart : FailureModel :=
  { partFails := fun n => decide (n = 1)
    deleteFails := fun _ => false }

/-- Bucket with one final object whose user-chosen name matches the
transient chunk-key pattern. -/
def exListStore : Store := [("a.chunk.3", StoreValue.blob [5] "text/plain")]

/-! ## Lemmas about the store primitives -/

theorem getObj_deleteObj_self (store : Store) (key : String) :
    getObj (deleteObj store key) key = none := by
  induction store with
  | nil => rfl
  | cons kv rest ih =>
    obtain ⟨k, v⟩ := kv
    by_cases hk : k = key
    · simpa [deleteObj, hk] using ih
    · simp [deleteObj, getObj, hk, ih]

theorem getObj_deleteObj_ne (store : Store) (key other : String)
    (h : other ≠ key) : getObj (deleteObj store key) other = getObj store other := by
  induction store with
  | nil => rfl
  | cons kv rest ih =>
    obtain ⟨k, v⟩ := kv
    by_cases hk : k = key
    · subst hk
      simp [deleteObj, getObj, Ne.symm h, ih]
    · by_cases ho : k = other
      · subst ho
        simp [deleteObj, getObj, hk, ih]
      · simp [deleteObj, getObj, hk, ho, ih]

theorem getObj_putObj_self (store : Store) (key : String) (v : StoreValue) :
    getObj (putObj store key v) key = some v := by
  simp [putObj, getObj]

theorem getObj_putObj_ne (store : Store) (key other : String) (v : StoreValue)
    (h : other ≠ key) : getObj (putObj store key v) other = getObj store other := by
  simp [putObj, getObj, Ne.symm h, getObj_deleteObj_ne store key other h]

theorem getObj_deleteObj_none (store : Store) (key other : String)
    (h : getObj store other = none) : getObj (deleteObj store key) other = none := by
  by_cases hk : other = key
  · subst hk; exact getObj_deleteObj_self store other
  · rw [getObj_deleteObj_ne store key other hk]; exact h

/-! ## Lemmas about batched deletes -/

theorem getObj_applyDeletes_of_not_mem (fm : FailureModel) (keys : List String) :
    ∀ (store : Store) (key : String), (∀ k ∈ keys, key ≠ k) →
      getObj (applyDeletes fm store keys) key = getObj store key := by
  induction keys with
  | nil => intro store key _; rfl
  | cons k ks ih =>
    intro store key h
    have hk : key ≠ k := h k (List.mem_cons_self k ks)
    have hks : ∀ k' ∈ ks, key ≠ k' := fun k' hk' => h k' (List.mem_cons_of_mem k hk')
    by_cases hf : fm.deleteFails k
    · simpa [applyDeletes, hf] using ih store key hks
    · rw [applyDeletes, if_neg hf, ih (deleteObj store k) key hks,
        getObj_deleteObj_ne store k key hk]

theorem getObj_applyDeletes_none (fm : FailureModel) (keys : List String) :
    ∀ (store : Store) (key : String), getObj store key = none →
      getObj (applyDeletes fm store keys) key = none := by
  induction keys with
  | nil => intro store key h; exact h
  | cons k ks ih =>
    intro store key h
    by_cases hf : fm.deleteFails k
    · simpa [applyDeletes, hf] using ih store key h
    · rw [applyDeletes, if_neg hf]
      exact ih (deleteObj store k) key (getObj_deleteObj_none store k key h)

theorem getObj_applyDeletes_of_mem (fm : FailureModel) (keys : List String) :
    ∀ (store : Store) (key : String), key ∈ keys →
      (∀ k ∈ keys, fm.deleteFails k = false) →
      getObj (applyDeletes fm store keys) key = none := by
  induction keys with
  | nil => intro store key h _; cases h
  | cons k ks ih =>
    intro store key hmem hok
    have hfk : fm.deleteFails k = false := hok k (List.mem_cons_self k ks)
    have hoks : ∀ k' ∈ ks, fm.deleteFails k' = false :=
      fun k' hk' => hok k' (List.mem_cons_of_mem k hk')
    rw [applyDeletes, if_neg (by simp [hfk])]
    rcases List.mem_cons.mp hmem with hkey | hkey
    · subst hkey
      exact getObj_applyDeletes_none fm ks (deleteObj store key) key
        (getObj_deleteObj_self store key)
    · exact ih (deleteObj store k) key hkey hoks

/-! ## Lemmas about the chunk-reading loop -/

theorem collectChunks_all_present (store : Store) (u : String)
    (v : Nat → StoreValue) :
    ∀ (rem i : Nat),
      (∀ j, i ≤ j → j < i + rem → getObj store (chunkKey u j) = some (v j)) →
      collectChunks store u i rem =
        ((List.range' i rem).map (fun j => (v j).contentBytes), none) := by
  intro rem
  induction rem with
  | zero => intro i _; rfl
  | succ rem ih =>
    intro i h
    have hi : getObj store (chunkKey u i) = some (v i) :=
      h i (Nat.le_refl i) (Nat.lt_of_lt_of_le (Nat.lt_succ_self i) (by omega))
    have hrest := ih (i + 1) (fun j h1 h2 => h j (by omega) (by omega))
    rw [collectChunks, hi]
    simp only [hrest, List.range'_succ i rem 1, List.map_cons]

theorem collectChunks_miss_none_iff (store : Store) (u : String) :
    ∀ (rem i : Nat),
      ((collectChunks store u i rem).2 = none ↔
        ∀ j, i ≤ j → j < i + rem → getObj store (chunkKey u j) ≠ none) := by
  intro rem
  induction rem with
  | zero =>
    intro i
    constructor
    · intro _ j h1 h2; omega
    · intro _; rfl
  | succ rem ih =>
    intro i
    cases hi : getObj store (chunkKey u i) with
    | none =>
      rw [collectChunks, hi]
      constructor
      · intro h; cases h
      · intro h; exact absurd hi (h i (Nat.le_refl i) (by omega))
    | some v =>
      rw [collectChunks, hi]
      simp only
      rw [ih (i + 1)]
      constructor
      · intro h j h1 h2
        rcases Nat.eq_or_lt_of_le h1 with h1 | h1
        · rw [← h1, hi]; simp
        · exact h j h1 (by omega)
      · intro h j h1 h2
        exact h j (by omega) (by omega)

theorem collectChunks_miss_some (store : Store) (u : String) :
    ∀ (rem i x : Nat), (collectChunks store u i rem).2 = some x →
      i ≤ x ∧ x < i + rem ∧ getObj store (chunkKey u x) = none ∧
        ∀ k, i ≤ k → k < x → getObj store (chunkKey u k) ≠ none := by
  intro rem
  induction rem with
  | zero => intro i x h; cases h
  | succ rem ih =>
    intro i x h
    cases hi : getObj store (chunkKey u i) with
    | none =>
      rw [collectChunks, hi] at h
      cases h
      exact ⟨Nat.le_refl i, by omega, hi, fun k h1 h2 => by omega⟩
    | some v =>
      rw [collectChunks, hi] at h
      simp only at h
      obtain ⟨h1, h2, h3, h4⟩ := ih (i + 1) x h
      refine ⟨by omega, by omega, h3, fun k hk1 hk2 => ?_⟩
      rcases Nat.eq_or_lt_of_le hk1 with hk | hk
      · rw [← hk, hi]; simp
      · exact h4 k hk hk2

theorem collectChunks_length (store : Store) (u : String) :
    ∀ (rem i : Nat), (collectChunks store u i rem).2 = none →
      (collectChunks store u i rem).1.length = rem := by
  intro rem
  induction rem with
  | zero => intro i _; rfl
  | succ rem ih =>
    intro i h
    cases hi : getObj store (chunkKey u i) with
    | none => rw [collectChunks, hi] at h; cases h
    | some v =>
      rw [collectChunks, hi] at h ⊢
      simp only at h ⊢
      rw [List.length_cons, ih (i + 1) h]

/-! ## Lemmas about part numbering and cleanup -/

theorem partsFrom_map_fst (l : List Bytes) :
    ∀ n, (partsFrom n l).map Prod.fst = List.range' n l.length := by
  induction l with
  | nil => intro n; rfl
  | cons bs rest ih =>
    intro n
    rw [partsFrom, List.map_cons, List.length_cons, List.range'_succ n rest.length 1,
      ih (n + 1)]

theorem partsFrom_range_map (b : Nat → Bytes) :
    ∀ (rem i : Nat), partsFrom (i + 1) ((List.range' i rem).map b) =
      (List.range' i rem).map (fun j => (j + 1, b j)) := by
  intro rem
  induction rem with
  | zero => intro i; rfl
  | succ rem ih =>
    intro i
    rw [List.range'_succ i rem 1, List.map_cons, List.map_cons, partsFrom, ih (i + 1)]

theorem partsOf_range_map (b : Nat → Bytes) (N : Nat) :
    partsOf ((List.range N).map b) = (List.range N).map (fun j => (j + 1, b j)) := by
  rw [partsOf, List.range_eq_range' N]
  exact partsFrom_range_map b N 0

theorem cleanupChunks_snd (fm : FailureModel) (store : Store) (u : String)
    (n : Nat) : (cleanupChunks fm store u n).2 =
      applyDeletes fm store (cleanupKeys u n) := rfl

theorem cleanupChunks_fst_ok (fm : FailureModel) (store : Store) (u : String)
    (n : Nat) (h : ∀ k ∈ cleanupKeys u n, fm.deleteFails k = false) :
    (cleanupChunks fm store u n).1 = Except.ok () := by
  have hfind : (cleanupKeys u n).find? (fun k => fm.deleteFails k) = none :=
    List.find?_eq_none.mpr (fun k hk => by simp [h k hk])
  simp [cleanupChunks, hfind]

theorem cleanupChunks_fst_cases (fm : FailureModel) (store : Store) (u : String)
    (n : Nat) : (cleanupChunks fm store u n).1 = Except.ok () ∨
      ∃ k, (cleanupChunks fm store u n).1 =
        Except.error (CompleteError.deleteFailed k) := by
  cases h : (cleanupKeys u n).find? (fun k => fm.deleteFails k) with
  | none => left; simp [cleanupChunks, h]
  | some k => right; exact ⟨k, by simp [cleanupChunks, h]⟩

theorem chunkKey_mem_cleanupKeys (u : String) (n i : Nat) (h : i < n) :
    chunkKey u i ∈ cleanupKeys u n := by
  exact List.mem_append_left _ (List.mem_map.mpr ⟨i, List.mem_range.mpr h, rfl⟩)

theorem metaKey_mem_cleanupKeys (u : String) (n : Nat) :
    metaKey u ∈ cleanupKeys u n := by
  exact List.mem_append_right _ (List.mem_singleton.mpr rfl)

/-! ## The main characterization of `completeUpload` when every chunk exists -/

theorem completeUpload_allPresent (fm : FailureModel) (store : Store)
    (filename u : String) (N : Nat) (m : UploadMeta)
    (b : Nat → Bytes) (cts : Nat → String)
    (hmeta : getObj store (metaKey u) = some (StoreValue.meta m))
    (hchunks : ∀ i, i < N → getObj store (chunkKey u i) =
      some (StoreValue.blob (b i) (cts i)))
    (hparts : ∀ i, i < N → fm.partFails (i + 1) = false) :
    completeUpload fm store filename u N =
      { outcome := (cleanupChunks fm
          (putObj store filename (StoreValue.blob
            (((List.range N).map b).flatten) (finalContentType m))) u N).1
        store := (cleanupChunks fm
          (putObj store filename (StoreValue.blob
            (((List.range N).map b).flatten) (finalContentType m))) u N).2
        finalizeCalled := !isSmallFile m.size
        partPuts := if isSmallFile m.size then []
          else (List.range N).map (fun j => (j + 1, b j)) } := by
  have hall := collectChunks_all_present store u
    (fun j => StoreValue.blob (b j) (cts j)) N 0
    (fun j _ h2 => hchunks j (by omega))
  have hallb : collectChunks store u 0 N = ((List.range N).map b, none) := by
    rw [hall, List.range_eq_range' N]
    simp [StoreValue.contentBytes]
  have hfind : List.find? ((fun p => fm.partFails p.1) ∘ fun j => (j + 1, b j))
      (List.range N) = none :=
    List.find?_eq_none.mpr (fun j hj => by
      simp [hparts j (List.mem_range.mp hj)])
  by_cases hsm : isSmallFile m.size
  · simp [completeUpload, hmeta, hallb, hsm]
  · simp only [Bool.not_eq_true] at hsm
    simp [completeUpload, hmeta, hallb, hsm, hfind, partsOf_range_map b N]

/-! ## Claim theorems -/

/-- Claim C1. For every chunk count `N ≥ 1`, if chunks `0..N-1` for an
`uploadId` all exist in the store (in whatever order they arrived), then
`completeUpload(uploadId, filename, N)` succeeds and writes a final object
under `filename` whose bytes equal the concatenation of the chunk bytes in
ascending part-index order — on both the small-file and the large-file path
(the session record `m`, hence the strategy choice, is arbitrary).
`filename` is a legitimate final-object name, i.e. not one of this upload's
transient keys. -/
theorem completeUpload_concat_ascending (store : Store) (filename u : String)
    (N : Nat) (m : UploadMeta) (b : Nat → Bytes) (cts : Nat → String)
    (hN : 1 ≤ N)
    (hmeta : getObj store (metaKey u) = some (StoreValue.meta m))
    (hchunks : ∀ i, i < N → getObj store (chunkKey u i) =
      some (StoreValue.blob (b i) (cts i)))
    (hcol : ∀ k ∈ cleanupKeys u N, filename ≠ k) :
    (completeUpload noFailures store filename u N).outcome = Except.ok () ∧
    getObj (completeUpload noFailures store filename u N).store filename =
      some (StoreValue.blob (((List.range N).map b).flatten)
        (finalContentType m)) := by
  have hmain := completeUpload_allPresent noFailures store filename u N m b cts
    hmeta hchunks (fun i _ => rfl)
  simp only [hmain]
  refine ⟨cleanupChunks_fst_ok noFailures _ u N (fun k _ => rfl), ?_⟩
  rw [cleanupChunks_snd, getObj_applyDeletes_of_not_mem noFailures
    (cleanupKeys u N) _ filename hcol, getObj_putObj_self]

/-- Witness for C1: in `exStore` both chunks exist; completing with `N = 2`
succeeds and `"f"` holds `[1, 2] ++ [3]` with the session's content type. -/
theorem completeUpload_concat_ascending_witness :
    (completeUpload noFailures exStore "f" "u" 2).outcome = Except.ok () ∧
    getObj (completeUpload noFailures exStore "f" "u" 2).store "f" =
      some (StoreValue.blob [1, 2, 3] "text/plain") := by
  have h := completeUpload_concat_ascending exStore "f" "u" 2 exMeta exB exCts
    (by decide) (by decide)
    (by intro i hi
        interval_cases i <;> decide)
    (by decide)
  exact ⟨h.1, h.2.trans (by decide)⟩

/-- Claim C2. For every `uploadId` whose session metadata object exists and
every chunk count `N`, `completeUpload(uploadId, filename, N)` fails with a
missing-chunk error (`Chunk i not found`) if and only if at least one index
in `[0, N)` has no chunk object in the store at call time; and the reported
index is the first missing one.  This holds under any failure model, on
either strategy path. -/
theorem completeUpload_missing_chunk_iff (fm : FailureModel) (store : Store)
    (filename u : String) (N : Nat) (m : UploadMeta)
    (hmeta : getObj store (metaKey u) = some (StoreValue.meta m)) :
    ((∃ i, (completeUpload fm store filename u N).outcome =
        Except.error (CompleteError.chunkNotFound i)) ↔
      ∃ j, j < N ∧ getObj store (chunkKey u j) = none) ∧
    (∀ i, (completeUpload fm store filename u N).outcome =
        Except.error (CompleteError.chunkNotFound i) →
      i < N ∧ getObj store (chunkKey u i) = none ∧
        ∀ j, j < i → getObj store (chunkKey u j) ≠ none) := by
  rcases hc : collectChunks store u 0 N with ⟨bs, miss⟩
  cases miss with
  | some x =>
    obtain ⟨hx0, hxN, hxnone, hxmin⟩ := collectChunks_miss_some store u N 0 x
      (by rw [hc])
    have hout : (completeUpload fm store filename u N).outcome =
        Except.error (CompleteError.chunkNotFound x) := by
      by_cases hsm : isSmallFile m.size <;>
        simp [completeUpload, hmeta, hc, hsm]
    constructor
    · exact ⟨fun _ => ⟨x, by omega, hxnone⟩, fun _ => ⟨x, hout⟩⟩
    · intro i hi
      rw [hout] at hi
      have hxi : x = i := by
        injection hi with h
        injection h
      subst hxi
      exact ⟨by omega, hxnone, fun j hj => hxmin j (by omega) hj⟩
  | none =>
    have hpresent : ∀ j, j < N → getObj store (chunkKey u j) ≠ none := by
      intro j hj
      exact (collectChunks_miss_none_iff store u N 0).mp (by rw [hc]) j
        (Nat.zero_le j) (by omega)
    have hout : ∀ i, (completeUpload fm store filename u N).outcome ≠
        Except.error (CompleteError.chunkNotFound i) := by
      intro i
      by_cases hsm : isSmallFile m.size
      · rcases cleanupChunks_fst_cases fm (putObj store filename
            (StoreValue.blob bs.flatten (finalContentType m))) u N with
          hok | ⟨k, hk⟩
        · simp [completeUpload, hmeta, hc, hsm, hok]
        · simp [completeUpload, hmeta, hc, hsm, hk]
      · cases hf : (partsOf bs).find? (fun p => fm.partFails p.1) with
        | some p => simp [completeUpload, hmeta, hc, hsm, hf]
        | none =>
          rcases cleanupChunks_fst_cases fm (putObj store filename
              (StoreValue.blob bs.flatten (finalContentType m))) u N with
            hok | ⟨k, hk⟩
          · simp [completeUpload, hmeta, hc, hsm, hf, hok]
          · simp [completeUpload, hmeta, hc, hsm, hf, hk]
    constructor
    · constructor
      · intro ⟨i, hi⟩
        exact absurd hi (hout i)
      · intro ⟨j, hjN, hjnone⟩
        exact absurd hjnone (hpresent j hjN)
    · intro i hi
      exact absurd hi (hout i)

/-- Witness for C2: in `exStoreOne` (session present, chunk 1 missing),
completing with `N = 2` reports chunk 1 — the first missing index — and the
characterization instantiates. -/
theorem completeUpload_missing_chunk_iff_witness :
    ((∃ i, (completeUpload noFailures exStoreOne "f" "u" 2).outcome =
        Except.error (CompleteError.chunkNotFound i)) ↔
      ∃ j, j < 2 ∧ getObj exStoreOne (chunkKey "u" j) = none) ∧
    (∀ i, (completeUpload noFailures exStoreOne "f" "u" 2).outcome =
        Except.error (CompleteError.chunkNotFound i) →
      i < 2 ∧ getObj exStoreOne (chunkKey "u" i) = none ∧
        ∀ j, j < i → getObj exStoreOne (chunkKey "u" j) ≠ none) :=
  completeUpload_missing_chunk_iff noFailures exStoreOne "f" "u" 2 exMeta
    (by decide)

/-- Claim C3. Every `completeUpload` call that fails mid-reassembly (any
failure other than a cleanup-delete rejection, e.g. a missing chunk) leaves
the bucket exactly as it was: no final object is created under the target
filename and every chunk object and the session metadata object that
existed at call time still exist, so the client can retry `completeUpload`
without re-uploading chunks. -/
theorem completeUpload_midReassembly_preserves_store (fm : FailureModel)
    (store : Store) (filename u : String) (N : Nat) (e : CompleteError)
    (hfail : (completeUpload fm store filename u N).outcome = Except.error e)
    (hmid : e.isCleanupError = false) :
    (completeUpload fm store filename u N).store = store := by
  cases hg : getObj store (metaKey u) with
  | none => simp [completeUpload, hg]
  | some v =>
    cases v with
    | blob data ct => simp [completeUpload, hg]
    | meta md =>
      rcases hc : collectChunks store u 0 N with ⟨bs, miss⟩
      by_cases hsm : isSmallFile md.size
      · cases miss with
        | some i => simp [completeUpload, hg, hsm, hc]
        | none =>
          rcases cleanupChunks_fst_cases fm (putObj store filename
              (StoreValue.blob bs.flatten (finalContentType md))) u N with
            hok | ⟨k, hk⟩
          · rw [completeUpload] at hfail
            simp [hg, hsm, hc, hok] at hfail
          · rw [completeUpload] at hfail
            simp [hg, hsm, hc, hk] at hfail
            rw [← hfail] at hmid
            simp [CompleteError.isCleanupError] at hmid
      · cases miss with
        | some i => simp [completeUpload, hg, hsm, hc]
        | none =>
          cases hf : (partsOf bs).find? (fun p => fm.partFails p.1) with
          | some p => simp [completeUpload, hg, hsm, hc, hf]
          | none =>
            rcases cleanupChunks_fst_cases fm (putObj store filename
                (StoreValue.blob bs.flatten (finalContentType md))) u N with
              hok | ⟨k, hk⟩
            · rw [completeUpload] at hfail
              simp [hg, hsm, hc, hf, hok] at hfail
            · rw [completeUpload] at hfail
              simp [hg, hsm, hc, hf, hk] at hfail
              rw [← hfail] at hmid
              simp [CompleteError.isCleanupError] at hmid

/-- Witness for C3: completing `exStoreOne` with `N = 2` fails with the
missing-chunk error for index 1 and the bucket afterwards is exactly
`exStoreOne`: chunk 0 and the session record are intact and no object was
written under `"f"`. -/
theorem completeUpload_midReassembly_preserves_store_witness :
    (completeUpload noFailures exStoreOne "f" "u" 2).store = exStoreOne :=
  completeUpload_midReassembly_preserves_store noFailures exStoreOne "f" "u" 2
    (CompleteError.chunkNotFound 1) rfl (by decide)

/-- Claim C4, counterexample. In the empty bucket there is no session
metadata object for `"w"`, yet the upload-chunk operation succeeds and
persists the chunk: the source never reads `{uploadId}.meta`, so there is
no `SessionNotFound` failure and orphan chunks are accepted silently. -/
theorem uploadChunk_accepts_orphan_cex :
    getObj ([] : Store) (metaKey "w") = none ∧
    (uploadChunk [] (some [7]) (some "0") (some "w") (some "f.bin")).ok = true ∧
    getObj (uploadChunk [] (some [7]) (some "0") (some "w") (some "f.bin")).store
      (chunkKey "w" 0) =
      some (StoreValue.blob [7] "application/octet-stream") := by
  refine ⟨rfl, rfl, ?_⟩
  decide

/-- Claim C4, amended. `uploadChunk` never consults the session registry:
for every `uploadId` with no session metadata object in the store, a
request that passes the form-field guard (chunk present, `uploadId` and
`filename` present and non-empty) still succeeds and persists the chunk
object at `` `${uploadId}.chunk.${index}` ``; `SessionNotFound` is never
produced by this operation. -/
theorem uploadChunk_persists_without_session (store : Store) (bs : Bytes)
    (idx uid fn : String) (huid : uid ≠ "") (hfn : fn ≠ "")
    (hnosess : getObj store (metaKey uid) = none) :
    (uploadChunk store (some bs) (some idx) (some uid) (some fn)).ok = true ∧
    getObj (uploadChunk store (some bs) (some idx) (some uid) (some fn)).store
      (uid ++ ".chunk." ++ idx) =
      some (StoreValue.blob bs "application/octet-stream") := by
  have hguard : (falsyField (some uid) || falsyField (some fn)) = false := by
    simp [falsyField, huid, hfn]
  have hres : uploadChunk store (some bs) (some idx) (some uid) (some fn) =
      { ok := true
        store := putObj store (uid ++ ".chunk." ++ idx)
          (StoreValue.blob bs "application/octet-stream") } := by
    rw [uploadChunk, if_neg (by simp [hguard])]
    rfl
  rw [hres]
  exact ⟨rfl, getObj_putObj_self store (uid ++ ".chunk." ++ idx)
    (StoreValue.blob bs "application/octet-stream")⟩

/-- Witness for the amended C4, at the concrete orphan-chunk input. -/
theorem uploadChunk_persists_without_session_witness :
    (uploadChunk [] (some [7]) (some "0") (some "w") (some "f.bin")).ok = true ∧
    getObj (uploadChunk [] (some [7]) (some "0") (some "w") (some "f.bin")).store
      ("w" ++ ".chunk." ++ "0") =
      some (StoreValue.blob [7] "application/octet-stream") :=
  uploadChunk_persists_without_session [] [7] "0" "w" "f.bin"
    (by decide) (by decide) rfl

/-- Claim C5, counterexample. In `exStoreOne` the reassembly succeeds (the
final object `"f"` is written with the reassembled bytes), but the delete
of chunk 0 rejects during cleanup; because `cleanupChunks` is awaited
inside `completeUpload`'s `try` block, the call returns *failure*, not
success — the cleanup failure is surfaced as the operation's outcome. -/
theorem completeUpload_cleanup_failure_surfaced_cex :
    getObj (completeUpload exFailDelete exStoreOne "f" "u" 1).store "f" =
      some (StoreValue.blob [1, 2] "text/plain") ∧
    (completeUpload exFailDelete exStoreOne "f" "u" 1).outcome =
      Except.error (CompleteError.deleteFailed (chunkKey "u" 0)) := by
  refine ⟨by decide, rfl⟩

/-- Claim C5, amended. When reassembly succeeds (metadata and all chunks
present, every part upload succeeds) but some cleanup delete fails,
`completeUpload` returns the cleanup failure as its outcome (a 500) even
though the final object was written under `filename`. -/
theorem completeUpload_cleanup_failure_fails_call (fm : FailureModel)
    (store : Store) (filename u : String) (N : Nat) (m : UploadMeta)
    (b : Nat → Bytes) (cts : Nat → String)
    (hmeta : getObj store (metaKey u) = some (StoreValue.meta m))
    (hchunks : ∀ i, i < N → getObj store (chunkKey u i) =
      some (StoreValue.blob (b i) (cts i)))
    (hparts : ∀ i, i < N → fm.partFails (i + 1) = false)
    (hdel : ∃ k ∈ cleanupKeys u N, fm.deleteFails k = true)
    (hcol : ∀ k ∈ cleanupKeys u N, filename ≠ k) :
    (∃ k, (completeUpload fm store filename u N).outcome =
      Except.error (CompleteError.deleteFailed k)) ∧
    getObj (completeUpload fm store filename u N).store filename =
      some (StoreValue.blob (((List.range N).map b).flatten)
        (finalContentType m)) := by
  have hmain := completeUpload_allPresent fm store filename u N m b cts
    hmeta hchunks hparts
  simp only [hmain]
  constructor
  · cases hf : (cleanupKeys u N).find? (fun k => fm.deleteFails k) with
    | none =>
      obtain ⟨k, hk, hkf⟩ := hdel
      have := List.find?_eq_none.mp hf k hk
      simp [hkf] at this
    | some k => exact ⟨k, by simp [cleanupChunks, hf]⟩
  · rw [cleanupChunks_snd, getObj_applyDeletes_of_not_mem fm
      (cleanupKeys u N) _ filename hcol, getObj_putObj_self]

/-- Witness for the amended C5, at the concrete failing-delete scenario. -/
theorem completeUpload_cleanup_failure_fails_call_witness :
    (∃ k, (completeUpload exFailDelete exStoreOne "f" "u" 1).outcome =
      Except.error (CompleteError.deleteFailed k)) ∧
    getObj (completeUpload exFailDelete exStoreOne "f" "u" 1).store "f" =
      some (StoreValue.blob
        (((List.range 1).map (fun _ => [1, 2])).flatten)
        (finalContentType exMeta)) := by
  exact completeUpload_cleanup_failure_fails_call exFailDelete exStoreOne
    "f" "u" 1 exMeta (fun _ => [1, 2]) (fun _ => "application/octet-stream")
    (by decide)
    (by intro i hi
        interval_cases i
        decide)
    (fun i _ => rfl) (by decide) (by decide)

/-- Claim C6. On the large-file path, the multipart finalize is invoked only
if every submitted part upload succeeded; and if some part upload fails
while all chunks are present, `completeUpload` fails without ever calling
finalize. -/
theorem completeUpload_finalize_gating (fm : FailureModel) (store : Store)
    (filename u : String) (N : Nat) (m : UploadMeta)
    (hmeta : getObj store (metaKey u) = some (StoreValue.meta m))
    (hlarge : isSmallFile m.size = false) :
    ((completeUpload fm store filename u N).finalizeCalled = true →
      ∀ i, i < N → fm.partFails (i + 1) = false) ∧
    (((∃ i, i < N ∧ fm.partFails (i + 1) = true) ∧
        ∀ j, j < N → getObj store (chunkKey u j) ≠ none) →
      (completeUpload fm store filename u N).finalizeCalled = false ∧
      (completeUpload fm store filename u N).outcome ≠ Except.ok ()) := by
  rcases hc : collectChunks store u 0 N with ⟨bs, miss⟩
  constructor
  · intro hfin i hiN
    cases miss with
    | some x => simp [completeUpload, hmeta, hlarge, hc] at hfin
    | none =>
      cases hf : (partsOf bs).find? (fun p => fm.partFails p.1) with
      | some p => simp [completeUpload, hmeta, hlarge, hc, hf] at hfin
      | none =>
        have hlen : bs.length = N := by
          have := collectChunks_length store u N 0 (by rw [hc])
          rwa [hc] at this
        have hmem1 : i + 1 ∈ (partsOf bs).map Prod.fst := by
          rw [partsOf, partsFrom_map_fst bs 1, hlen]
          exact List.mem_range'_1.mpr ⟨by omega, by omega⟩
        obtain ⟨p, hp, hp1⟩ := List.mem_map.mp hmem1
        have hnp := List.find?_eq_none.mp hf p hp
        rw [hp1] at hnp
        exact Bool.eq_false_iff.mpr (fun hcontra => hnp (by simp [hcontra]))
  · intro ⟨⟨i, hiN, hip⟩, hpresent⟩
    have hmiss : miss = none := by
      have := (collectChunks_miss_none_iff store u N 0).mpr
        (fun j _ hj => hpresent j (by omega))
      rwa [hc] at this
    subst hmiss
    have hlen : bs.length = N := by
      have := collectChunks_length store u N 0 (by rw [hc])
      rwa [hc] at this
    cases hf : (partsOf bs).find? (fun p => fm.partFails p.1) with
    | none =>
      exfalso
      have hmem1 : i + 1 ∈ (partsOf bs).map Prod.fst := by
        rw [partsOf, partsFrom_map_fst bs 1, hlen]
        exact List.mem_range'_1.mpr ⟨by omega, by omega⟩
      obtain ⟨p, hp, hp1⟩ := List.mem_map.mp hmem1
      have hnp := List.find?_eq_none.mp hf p hp
      rw [hp1] at hnp
      exact hnp (by simp [hip])
    | some p =>
      constructor
      · simp [completeUpload, hmeta, hlarge, hc, hf]
      · simp [completeUpload, hmeta, hlarge, hc, hf]

/-- Witness for C6: `exStoreLarge` declares 200 MiB, so the multipart path
is taken; with part 1 forced to fail and chunk 0 present, the completion
fails and finalize is never called. -/
theorem completeUpload_finalize_gating_witness :
    (((completeUpload exFailPart exStoreLarge "f" "u" 1).finalizeCalled = true →
      ∀ i, i < 1 → exFailPart.partFails (i + 1) = false) ∧
    (((∃ i, i < 1 ∧ exFailPart.partFails (i + 1) = true) ∧
        ∀ j, j < 1 → getObj exStoreLarge (chunkKey "u" j) ≠ none) →
      (completeUpload exFailPart exStoreLarge "f" "u" 1).finalizeCalled = false ∧
      (completeUpload exFailPart exStoreLarge "f" "u" 1).outcome ≠
        Except.ok ())) :=
  completeUpload_finalize_gating exFailPart exStoreLarge "f" "u" 1 exMetaLarge
    (by decide) (by decide)

/-- Claim C7. `completeUpload` selects its strategy by the session's declared
size with threshold 100 MiB: when `declaredSize = s` is strictly below
`100 * 1024 * 1024` it reads all chunks, concatenates them in index order,
and writes the result as a single put under `filename` with the session's
content type (no multipart parts, no finalize); when `s` is at or above the
threshold it uses the multipart upload, sending chunk index `i` as part
number `i + 1` and finalizing into the same concatenation. -/
theorem completeUpload_strategy_threshold (store : Store) (filename u : String)
    (N : Nat) (m : UploadMeta) (s : Nat) (b : Nat → Bytes) (cts : Nat → String)
    (hmeta : getObj store (metaKey u) = some (StoreValue.meta m))
    (hsize : m.size = some s)
    (hchunks : ∀ i, i < N → getObj store (chunkKey u i) =
      some (StoreValue.blob (b i) (cts i)))
    (hcol : ∀ k ∈ cleanupKeys u N, filename ≠ k) :
    (s < 100 * 1024 * 1024 →
      (completeUpload noFailures store filename u N).finalizeCalled = false ∧
      (completeUpload noFailures store filename u N).partPuts = [] ∧
      (completeUpload noFailures store filename u N).outcome = Except.ok () ∧
      getObj (completeUpload noFailures store filename u N).store filename =
        some (StoreValue.blob (((List.range N).map b).flatten)
          (finalContentType m))) ∧
    (100 * 1024 * 1024 ≤ s →
      (completeUpload noFailures store filename u N).finalizeCalled = true ∧
      (completeUpload noFailures store filename u N).partPuts =
        (List.range N).map (fun j => (j + 1, b j)) ∧
      (completeUpload noFailures store filename u N).outcome = Except.ok () ∧
      getObj (completeUpload noFailures store filename u N).store filename =
        some (StoreValue.blob (((List.range N).map b).flatten)
          (finalContentType m))) := by
  have hmain := completeUpload_allPresent noFailures store filename u N m b cts
    hmeta hchunks (fun i _ => rfl)
  have hout : (completeUpload noFailures store filename u N).outcome =
      Except.ok () := by
    simp only [hmain]
    exact cleanupChunks_fst_ok noFailures _ u N (fun k _ => rfl)
  have hstore : getObj (completeUpload noFailures store filename u N).store
      filename = some (StoreValue.blob (((List.range N).map b).flatten)
        (finalContentType m)) := by
    simp only [hmain]
    rw [cleanupChunks_snd, getObj_applyDeletes_of_not_mem noFailures
      (cleanupKeys u N) _ filename hcol, getObj_putObj_self]
  constructor
  · intro hs
    have h1 : isSmallFile m.size = true := by
      rw [hsize]
      simp [isSmallFile, hs]
    refine ⟨?_, ?_, hout, hstore⟩
    · simp only [hmain]
      simp [h1]
    · simp only [hmain]
      simp [h1]
  · intro hs
    have h1 : isSmallFile m.size = false := by
      rw [hsize]
      simp [isSmallFile]
      omega
    refine ⟨?_, ?_, hout, hstore⟩
    · simp only [hmain]
      simp [h1]
    · simp only [hmain]
      simp [h1]

/-- Witness for C7, small side: declared size 3 is below the threshold, so
the put path runs with no parts and no finalize (the large-side implication
holds vacuously at this input). -/
theorem completeUpload_strategy_threshold_witness :
    (3 < 100 * 1024 * 1024 →
      (completeUpload noFailures exStore "f" "u" 2).finalizeCalled = false ∧
      (completeUpload noFailures exStore "f" "u" 2).partPuts = [] ∧
      (completeUpload noFailures exStore "f" "u" 2).outcome = Except.ok () ∧
      getObj (completeUpload noFailures exStore "f" "u" 2).store "f" =
        some (StoreValue.blob (((List.range 2).map exB).flatten)
          (finalContentType exMeta))) ∧
    (100 * 1024 * 1024 ≤ 3 →
      (completeUpload noFailures exStore "f" "u" 2).finalizeCalled = true ∧
      (completeUpload noFailures exStore "f" "u" 2).partPuts =
        (List.range 2).map (fun j => (j + 1, exB j)) ∧
      (completeUpload noFailures exStore "f" "u" 2).outcome = Except.ok () ∧
      getObj (completeUpload noFailures exStore "f" "u" 2).store "f" =
        some (StoreValue.blob (((List.range 2).map exB).flatten)
          (finalContentType exMeta))) := by
  exact completeUpload_strategy_threshold exStore "f" "u" 2 exMeta 3 exB exCts
    (by decide) rfl
    (by intro i hi
        interval_cases i <;> decide)
    (by decide)

/-- Claim C8, counterexample. Chunk index 1 was accepted for upload `u` (the
receiver enforces no upper bound), and `completeUpload` with `N = 1`
returns success; yet the object at `chunkKey "u" 1` — a key matching
`{uploadId}.chunk.*` — still exists in the store afterwards, because
cleanup only deletes indices `0..N-1`. -/
theorem completeUpload_leaves_extra_chunks_cex :
    (completeUpload noFailures exStore "f" "u" 1).outcome = Except.ok () ∧
    hasChunkMarker (chunkKey "u" 1) = true ∧
    getObj (completeUpload noFailures exStore "f" "u" 1).store
      (chunkKey "u" 1) =
      some (StoreValue.blob [3] "application/octet-stream") := by
  refine ⟨rfl, by decide, by decide⟩

/-- Claim C8, amended. After `completeUpload(uploadId, filename, N)` returns
success, no chunk object with index in `[0, N)` and no `{uploadId}.meta`
object remains in the store; chunk objects at indices at or above `N`
(which the receiver accepted without an upper bound) are not touched by
cleanup and may remain. -/
theorem completeUpload_success_cleans_declared (fm : FailureModel)
    (store : Store) (filename u : String) (N : Nat)
    (hok : (completeUpload fm store filename u N).outcome = Except.ok ()) :
    (∀ i, i < N →
      getObj (completeUpload fm store filename u N).store (chunkKey u i) =
        none) ∧
    getObj (completeUpload fm store filename u N).store (metaKey u) =
      none := by
  cases hg : getObj store (metaKey u) with
  | none =>
    rw [completeUpload] at hok
    simp [hg] at hok
  | some v =>
    cases v with
    | blob data ct =>
      rw [completeUpload] at hok
      simp [hg] at hok
    | meta md =>
      rcases hc : collectChunks store u 0 N with ⟨bs, miss⟩
      by_cases hsm : isSmallFile md.size
      · cases miss with
        | some i =>
          rw [completeUpload] at hok
          simp [hg, hsm, hc] at hok
        | none =>
          have h1 : (cleanupChunks fm (putObj store filename
              (StoreValue.blob bs.flatten (finalContentType md))) u N).1 =
              Except.ok () := by
            rw [completeUpload] at hok
            simpa [hg, hsm, hc] using hok
          have hnofail : ∀ k ∈ cleanupKeys u N, fm.deleteFails k = false := by
            intro k hk
            cases hf : (cleanupKeys u N).find? (fun k => fm.deleteFails k) with
            | none => simpa using List.find?_eq_none.mp hf k hk
            | some k2 => simp [cleanupChunks, hf] at h1
          have hstore : (completeUpload fm store filename u N).store =
              applyDeletes fm (putObj store filename
                (StoreValue.blob bs.flatten (finalContentType md)))
                (cleanupKeys u N) := by
            rw [completeUpload]
            simp [hg, hsm, hc, cleanupChunks_snd]
          rw [hstore]
          exact ⟨fun i hi => getObj_applyDeletes_of_mem fm (cleanupKeys u N)
              _ _ (chunkKey_mem_cleanupKeys u N i hi) hnofail,
            getObj_applyDeletes_of_mem fm (cleanupKeys u N) _ _
              (metaKey_mem_cleanupKeys u N) hnofail⟩
      · cases miss with
        | some i =>
          rw [completeUpload] at hok
          simp [hg, hsm, hc] at hok
        | none =>
          cases hf : (partsOf bs).find? (fun p => fm.partFails p.1) with
          | some p =>
            rw [completeUpload] at hok
            simp [hg, hsm, hc, hf] at hok
          | none =>
            have h1 : (cleanupChunks fm (putObj store filename
                (StoreValue.blob bs.flatten (finalContentType md))) u N).1 =
                Except.ok () := by
              rw [completeUpload] at hok
              simpa [hg, hsm, hc, hf] using hok
            have hnofail : ∀ k ∈ cleanupKeys u N, fm.deleteFails k = false := by
              intro k hk
              cases hff : (cleanupKeys u N).find? (fun k => fm.deleteFails k) with
              | none => simpa using List.find?_eq_none.mp hff k hk
              | some k2 => simp [cleanupChunks, hff] at h1
            have hstore : (completeUpload fm store filename u N).store =
                applyDeletes fm (putObj store filename
                  (StoreValue.blob bs.flatten (finalContentType md)))
                  (cleanupKeys u N) := by
              rw [completeUpload]
              simp [hg, hsm, hc, hf, cleanupChunks_snd]
            rw [hstore]
            exact ⟨fun i hi => getObj_applyDeletes_of_mem fm (cleanupKeys u N)
                _ _ (chunkKey_mem_cleanupKeys u N i hi) hnofail,
              getObj_applyDeletes_of_mem fm (cleanupKeys u N) _ _
                (metaKey_mem_cleanupKeys u N) hnofail⟩

/-- Witness for the amended C8: completing `exStore` with `N = 2` succeeds
and afterwards chunks 0 and 1 and the metadata object are gone. -/
theorem completeUpload_success_cleans_declared_witness :
    (∀ i, i < 2 →
      getObj (completeUpload noFailures exStore "f" "u" 2).store
        (chunkKey "u" i) = none) ∧
    getObj (completeUpload noFailures exStore "f" "u" 2).store (metaKey "u") =
      none :=
  completeUpload_success_cleans_declared noFailures exStore "f" "u" 2 rfl

/-- Claim C9. For a session created without a declared size (`size` absent in
the stored metadata, as `prepareUpload` stores it when the client omits the
field), the small-file condition `metadata.size < 100MiB` is false (JS
`undefined < n`), so `completeUpload` takes the large-file multipart path:
with all chunks present it calls finalize and succeeds. -/
theorem completeUpload_no_declared_size_multipart (store : Store)
    (filename u fn : String) (ct : Option String) (N : Nat)
    (b : Nat → Bytes) (cts : Nat → String)
    (hmeta : getObj store (metaKey u) =
      some (StoreValue.meta (sessionMeta fn ct none)))
    (hchunks : ∀ i, i < N → getObj store (chunkKey u i) =
      some (StoreValue.blob (b i) (cts i))) :
    isSmallFile (sessionMeta fn ct none).size = false ∧
    (completeUpload noFailures store filename u N).finalizeCalled = true ∧
    (completeUpload noFailures store filename u N).outcome = Except.ok () := by
  have hmain := completeUpload_allPresent noFailures store filename u N
    (sessionMeta fn ct none) b cts hmeta hchunks (fun i _ => rfl)
  refine ⟨rfl, ?_, ?_⟩
  · simp only [hmain]
    rfl
  · simp only [hmain]
    exact cleanupChunks_fst_ok noFailures _ u N (fun k _ => rfl)

/-- Witness for C9: the session in `exStoreNoSize` has no declared size;
completing its single chunk takes the multipart path and succeeds. -/
theorem completeUpload_no_declared_size_multipart_witness :
    isSmallFile (sessionMeta "f" (some "text/plain") none).size = false ∧
    (completeUpload noFailures exStoreNoSize "f" "u" 1).finalizeCalled = true ∧
    (completeUpload noFailures exStoreNoSize "f" "u" 1).outcome =
      Except.ok () := by
  exact completeUpload_no_declared_size_multipart exStoreNoSize "f" "u" "f"
    (some "text/plain") 1 (fun _ => [9]) (fun _ => "application/octet-stream")
    (by decide)
    (by intro i hi
        interval_cases i
        decide)

/-- Claim C10. `listFiles` excludes every object whose key contains the
substring `.chunk.` or ends with `.meta` — including a completed final
object whose user-chosen filename happens to match one of those patterns:
such an object is never returned by the list operation even though it
exists in the store and `downloadFile` serves it. -/
theorem listFiles_excludes_transient_patterns (store : Store) (k : String)
    (hk : hasChunkMarker k = true ∨ k.endsWith ".meta" = true) :
    (∀ entry ∈ listFiles store, entry.1 ≠ k) ∧
    (∀ v, getObj store k = some v →
      ∃ r, downloadFile store k = Except.ok r) := by
  constructor
  · intro entry hentry heq
    obtain ⟨kv, hkv, hkveq⟩ := List.mem_map.mp hentry
    have hfilter := (List.mem_filter.mp hkv).2
    have hkv1 : kv.1 = k := by rw [← hkveq] at heq; exact heq
    rw [hkv1] at hfilter
    rcases hk with hk | hk <;> simp [hk] at hfilter
  · intro v hv
    cases v with
    | blob data ct =>
      exact ⟨(data, if ct = "" then "application/octet-stream" else ct),
        by simp [downloadFile, hv]⟩
    | meta m =>
      exact ⟨((StoreValue.meta m).contentBytes, "application/octet-stream"),
        by simp [downloadFile, hv]⟩

/-- Witness for C10: the final object named `a.chunk.3` exists in
`exListStore` and is downloadable, yet `listFiles` never returns it. -/
theorem listFiles_excludes_transient_patterns_witness :
    (∀ entry ∈ listFiles exListStore, entry.1 ≠ "a.chunk.3") ∧
    (∀ v, getObj exListStore "a.chunk.3" = some v →
      ∃ r, downloadFile exListStore "a.chunk.3" = Except.ok r) :=
  listFiles_excludes_transient_patterns exListStore "a.chunk.3"
    (Or.inl (by decide))

end R2Share
